import Mathlib

/-!
Verification of the heuristic landmark synthesis and anchor-based compositing
engine of the virtual try-on backend.

Shallow embedding conventions:
- Python machine floats are modelled by exact rationals or reals; the Python
  conversion int(.) (truncation toward zero) is modelled by qtrunc / rtrunc.
- Python integer floor division (//) on nonnegative ints is Nat division.
- Pixel buffers are structures carrying dimensions and a pixel function;
  channel values are naturals, with the uint8 cast of numpy astype modelled
  by an explicit mod 256.
- Detection rectangles from cv2 detectMultiScale are nonnegative, so Rect
  fields are naturals; signed intermediate arithmetic is done in Int.
-/

/-- Truncation toward zero of a rational, the Python int(.) conversion. -/
def qtrunc (q : ℚ) : ℤ := if 0 ≤ q then ⌊q⌋ else -⌊-q⌋

open scoped Classical in
/-- Truncation toward zero of a real, the Python int(.) conversion. -/
noncomputable def rtrunc (x : ℝ) : ℤ := if 0 ≤ x then ⌊x⌋ else -⌊-x⌋

/-- An axis-aligned detection rectangle (x, y, width, height), as returned by
cv2 detectMultiScale (all components nonnegative integers). -/
structure Rect where
  x : ℕ
  y : ℕ
  w : ℕ
  h : ℕ
deriving DecidableEq, Inhabited

/-! ## Face Candidate Filter
Embeds AdvancedFaceDetectionService.detect_faces_and_landmarks, lines 56-73 of
services/advanced_face_detection.py: centrality and minimum-size filtering of
raw detections. The code compares the Euclidean distance of the face center
from the image center (integer centers via //2) against 0.4*min(W,H) and the
sizes against 0.15*W and 0.15*H; an exact-rational model compares 25*dist^2
with 4*min^2 and 20*w with 3*W. -/

/-- Squared distance from the center of rectangle r to the image center,
with both centers computed by integer floor division as in the source. -/
def centerDistSq (W H : ℕ) (r : Rect) : ℤ :=
  (((r.x + r.w / 2 : ℕ) : ℤ) - ((W / 2 : ℕ) : ℤ)) ^ 2 +
    (((r.y + r.h / 2 : ℕ) : ℤ) - ((H / 2 : ℕ) : ℤ)) ^ 2

/-- The acceptance test of the face candidate filter:
distance_from_center < 0.4*min(W,H) and w > 0.15*W and h > 0.15*H. -/
def keepFace (W H : ℕ) (r : Rect) : Bool :=
  decide (25 * centerDistSq W H r < 4 * ((min W H : ℕ) : ℤ) ^ 2 ∧
    3 * W < 20 * r.w ∧ 3 * H < 20 * r.h)

/-- The face candidate filter: keeps the raw detections passing keepFace,
in order. -/
def filterFaces (W H : ℕ) (faces : List Rect) : List Rect :=
  faces.filter (keepFace W H)

/-! ## Eyewear geometry
Embeds GlassesTryOn.apply_glasses, lines 86-110 of services/glasses.py. -/

/-- glasses_width = int(eye_distance * 2.5). -/
def glassesWidth (d : ℕ) : ℕ := 5 * d / 2

/-- glasses_height = int(glasses_width * aspect_ratio) with
aspect_ratio = overlay_height / overlay_width. -/
def glassesHeight (gw ovw ovh : ℕ) : ℕ := gw * ovh / ovw

/-- x_offset = eye1_center.x - int(glasses_width * 0.28). -/
def xOffset (e1x gw : ℕ) : ℤ := (e1x : ℤ) - ((28 * gw / 100 : ℕ) : ℤ)

/-- y_offset = eye1_center.y - int(glasses_height * 0.45). -/
def yOffset (e1y gh : ℕ) : ℤ := (e1y : ℤ) - ((45 * gh / 100 : ℕ) : ℤ)

/-- Center of a detected eye rectangle e inside face f:
(fx + ex + ew//2, fy + ey + eh//2). -/
def eyeCenter (f e : Rect) : ℕ × ℕ := (f.x + e.x + e.w / 2, f.y + e.y + e.h / 2)

/-- Swap the two eye centers so the left eye (smaller x) comes first. -/
def orderEyes (c1 c2 : ℕ × ℕ) : (ℕ × ℕ) × (ℕ × ℕ) :=
  if c1.1 > c2.1 then (c2, c1) else (c1, c2)

/-- eye_distance = int(sqrt(dx^2 + dy^2)), the floor of the Euclidean
distance between the two eye centers. -/
def eyeDistance (p1 p2 : ℕ × ℕ) : ℕ :=
  Nat.sqrt ((((p2.1 : ℤ) - (p1.1 : ℤ)).natAbs) ^ 2 + (((p2.2 : ℤ) - (p1.2 : ℤ)).natAbs) ^ 2)

/-! ## Inner-lip derivation
Embeds AdvancedFaceDetectionService._generate_mouth_landmarks, lines 367-379
of services/advanced_face_detection.py. -/

/-- Every second element of a list starting from the first: the Python
slice l[::2]. -/
def everyOther : List α → List α
  | [] => []
  | [a] => [a]
  | a :: _ :: t => a :: everyOther t

/-- Derivation of the inner-lip polygon from the outer-lip polygon: take
every second outer point and move it 30 percent toward the centroid of all
outer points, with int(.) truncation of each coordinate. -/
def innerLip (outer : List (ℤ × ℤ)) : List (ℤ × ℤ) :=
  if outer.isEmpty then []
  else
    let n : ℚ := outer.length
    let cx : ℚ := ((outer.map fun p => (p.1 : ℚ)).sum) / n
    let cy : ℚ := ((outer.map fun p => (p.2 : ℚ)).sum) / n
    (everyOther outer).map fun p =>
      (qtrunc ((p.1 : ℚ) * 0.7 + cx * 0.3), qtrunc ((p.2 : ℚ) * 0.7 + cy * 0.3))

/-! ## Duplicate-face removal
Embeds SimpleFaceDetectionService._remove_duplicate_faces, lines 100-132 of
services/simple_face_detection.py. -/

/-- Rectangle area w*h. -/
def area (r : Rect) : ℤ := (r.w : ℤ) * (r.h : ℤ)

/-- Intersection area of two rectangles:
max(0, min(x+w, ex+ew) - max(x, ex)) * max(0, min(y+h, ey+eh) - max(y, ey)). -/
def overlapArea (a b : Rect) : ℤ :=
  max 0 (min ((a.x : ℤ) + a.w) ((b.x : ℤ) + b.w) - max (a.x : ℤ) (b.x : ℤ)) *
    max 0 (min ((a.y : ℤ) + a.h) ((b.y : ℤ) + b.h) - max (a.y : ℤ) (b.y : ℤ))

/-- The duplicate test: overlap_area > 0.5 * min(face_area, existing_area). -/
def isDuplicate (f e : Rect) : Bool :=
  decide (2 * overlapArea f e > min (area f) (area e))

/-- The accumulation loop of _remove_duplicate_faces: keep each face unless
it duplicates one already kept. -/
def dedupLoop : List Rect → List Rect → List Rect
  | [], acc => acc
  | f :: rest, acc =>
    if acc.any (fun e => isDuplicate f e) then dedupLoop rest acc
    else dedupLoop rest (acc ++ [f])

/-- _remove_duplicate_faces: lists of length at most one are returned as-is,
otherwise the accumulation loop runs with an empty initial list. -/
def removeDuplicateFaces (faces : List Rect) : List Rect :=
  if faces.length ≤ 1 then faces else dedupLoop faces []

/-! ## Pixel buffers and alpha blending
Embeds GlassesTryOn._overlay_with_transparency, lines 121-170 of
services/glasses.py. ClothingTryOn._overlay_image, lines 95-144 of
services/clothing.py, is line-for-line identical and is embedded by the same
definition. A buffer is its dimensions together with a pixel function indexed
as pix row col (numpy image[y, x]); channel values are uint8 values, the
astype(np.uint8) cast being the explicit mod 256. -/

/-- A 3-channel (BGR) pixel. -/
structure Pix3 where
  b : ℕ
  g : ℕ
  r : ℕ
deriving DecidableEq

/-- A 4-channel (BGRA) pixel; field a is the opacity channel. -/
structure Pix4 where
  b : ℕ
  g : ℕ
  r : ℕ
  a : ℕ
deriving DecidableEq

/-- A 3-channel destination buffer. -/
structure Img3 where
  w : ℕ
  h : ℕ
  pix : ℕ → ℕ → Pix3

/-- A 4-channel overlay buffer with opacity. -/
structure Img4 where
  w : ℕ
  h : ℕ
  pix : ℕ → ℕ → Pix4

/-- Per-pixel over-compositing, blended = alpha*ov_rgb + (1-alpha)*bg with
alpha = a/255, computed exactly and truncated by the uint8 cast. -/
def blendPix (o : Pix4) (p : Pix3) : Pix3 :=
  ⟨(o.a * o.b + (255 - o.a) * p.b) / 255 % 256,
   (o.a * o.g + (255 - o.a) * p.g) / 255 % 256,
   (o.a * o.r + (255 - o.a) * p.r) / 255 % 256⟩

/-- Membership of destination coordinates (row i, col j) in the clipped
overlay rectangle: x1 <= j < x2 and y1 <= i < y2 with
x1 = max(0, x), x2 = min(bg_w, x + ov_w), y1 = max(0, y),
y2 = min(bg_h, y + ov_h). -/
def insideClip (bg : Img3) (ov : Img4) (x y : ℤ) (i j : ℕ) : Prop :=
  max 0 x ≤ (j : ℤ) ∧ (j : ℤ) < min (bg.w : ℤ) (x + ov.w) ∧
    max 0 y ≤ (i : ℤ) ∧ (i : ℤ) < min (bg.h : ℤ) (y + ov.h)

instance (bg : Img3) (ov : Img4) (x y : ℤ) (i j : ℕ) :
    Decidable (insideClip bg ov x y i j) := by
  unfold insideClip; infer_instance

/-- The clipped overlay/destination intersection is empty:
x1 >= x2 or y1 >= y2. -/
def emptyClip (bg : Img3) (ov : Img4) (x y : ℤ) : Prop :=
  max 0 x ≥ min (bg.w : ℤ) (x + ov.w) ∨ max 0 y ≥ min (bg.h : ℤ) (y + ov.h)

instance (bg : Img3) (ov : Img4) (x y : ℤ) : Decidable (emptyClip bg ov x y) := by
  unfold emptyClip; infer_instance

/-- _overlay_with_transparency: clip the overlay rectangle against the
destination bounds, return the destination unchanged when the intersection is
empty, otherwise return a copy of the destination with the clipped region
alpha-blended. The source never mutates its inputs (it blends into
background.copy()), which the embedding reflects by being a pure function. -/
def overlayWithTransparency (bg : Img3) (ov : Img4) (x y : ℤ) : Img3 :=
  let x1 := max 0 x
  let y1 := max 0 y
  let ox1 := max 0 (-x)
  let oy1 := max 0 (-y)
  if emptyClip bg ov x y then bg
  else
    { w := bg.w, h := bg.h,
      pix := fun i j =>
        if insideClip bg ov x y i j then
          blendPix (ov.pix (oy1 + ((i : ℤ) - y1)).toNat (ox1 + ((j : ℤ) - x1)).toNat)
            (bg.pix i j)
        else bg.pix i j }

/-! ## The glasses try-on pipeline
Embeds GlassesTryOn.apply_glasses, lines 40-119 of services/glasses.py.
The Haar-cascade face and eye detectors are external collaborators; the
pipeline is parameterized by their outputs (faces, eyes) and by the cv2
resize operation. The catch-all exception handler of the source returns the
user image; in the embedding every operation is total, and the one Python
operation that can raise on valid buffers (the aspect-ratio division when the
overlay width is zero) lands in the same user-image result because Nat
division by zero yields height zero, which the size guard catches. -/

/-- sorted(eyes, key=e[0])[:2]: the two leftmost detected eyes (stable sort
by x), returned as a pair. -/
def selectedEyes (eyes : List Rect) : Rect × Rect :=
  let s := (eyes.mergeSort (fun a b => a.x ≤ b.x)).take 2
  (s.getD 0 default, s.getD 1 default)

/-- The ordered pair (eye1_center, eye2_center) of the two selected eyes of
face f, left eye first. -/
def eyePair (f : Rect) (eyes : List Rect) : (ℕ × ℕ) × (ℕ × ℕ) :=
  orderEyes (eyeCenter f (selectedEyes eyes).1) (eyeCenter f (selectedEyes eyes).2)

/-- The glasses_width local of apply_glasses for face f and detections
eyes. -/
def glassesGw (f : Rect) (eyes : List Rect) : ℕ :=
  glassesWidth (eyeDistance (eyePair f eyes).1 (eyePair f eyes).2)

/-- The glasses_height local of apply_glasses. -/
def glassesGh (f : Rect) (eyes : List Rect) (glasses : Img4) : ℕ :=
  glassesHeight (glassesGw f eyes) glasses.w glasses.h

/-- apply_glasses: detect failure cases degrade to the unmodified user image;
otherwise resize the overlay by the eyewear scale law and composite it. The
locals of the source body (eye centers, eye_distance, glasses_width,
glasses_height) are the named definitions above. -/
def applyGlasses (faces eyes : List Rect) (glasses : Img4)
    (resize : Img4 → ℕ → ℕ → Img4) (user : Img3) : Img3 :=
  match faces with
  | [] => user
  | f :: _ =>
    if eyes.length < 2 then user
    else if glassesGw f eyes = 0 ∨ glassesGh f eyes glasses = 0 then user
    else
      overlayWithTransparency user
        (resize glasses (glassesGw f eyes) (glassesGh f eyes glasses))
        (xOffset (eyePair f eyes).1.1 (glassesGw f eyes))
        (yOffset (eyePair f eyes).1.2 (glassesGh f eyes glasses))

/-! ## Parametric shape generators
Embed AdvancedFaceDetectionService._generate_face_outline (lines 173-200),
_create_eye_shape (lines 222-253) and _generate_nose_landmarks (lines
323-349) of services/advanced_face_detection.py. Points are returned in
image space as integer pairs; the trigonometric arithmetic is over the
reals, truncated by rtrunc as by the Python int(.) conversion. -/

open scoped Classical in
/-- _generate_face_outline: 17 points produced by np.linspace(0, 2*pi, 17)
(17 inclusive samples, step 2*pi/16) on an ellipse of semi-axes
0.45*fw and 0.48*fh about the region center, each coordinate clamped by
max(0, min(fw - 1, .)) respectively max(0, min(fh - 1, .)) and then
translated by the region origin. -/
noncomputable def generateFaceOutline (fx fy fw fh : ℕ) : List (ℤ × ℤ) :=
  let cX : ℕ := fw / 2
  let cY : ℕ := fh / 2
  (List.range 17).map fun (k : ℕ) =>
    let angle : ℝ := 2 * Real.pi * (k : ℝ) / 16
    let a : ℝ := fw * 0.45
    let b : ℝ := fh * 0.48
    let px : ℤ := max 0 (min ((fw : ℤ) - 1) (rtrunc ((cX : ℝ) + a * Real.cos angle)))
    let py : ℤ := max 0 (min ((fh : ℤ) - 1) (rtrunc ((cY : ℝ) + b * Real.sin angle)))
    ((fx : ℤ) + px, (fy : ℤ) + py)

open scoped Classical in
/-- _create_eye_shape: 12 points at angles 2*pi*i/12 around the floored
eye-window center, with horizontal semi-axis eye_w*0.5 and vertical
semi-axis eye_h*0.4 on the branch 0 <= angle < pi and eye_h*0.5 otherwise;
no clamping is applied. -/
noncomputable def createEyeShape (ex ey ew eh fx fy : ℕ) : List (ℤ × ℤ) :=
  let cX : ℕ := ex + ew / 2
  let cY : ℕ := ey + eh / 2
  (List.range 12).map fun (i : ℕ) =>
    let angle : ℝ := 2 * Real.pi * (i : ℝ) / 12
    let rx : ℝ := ew * 0.5
    let ry : ℝ := if 0 ≤ angle ∧ angle < Real.pi then eh * 0.4 else eh * 0.5
    ((fx : ℤ) + cX + rtrunc (rx * Real.cos angle),
     (fy : ℤ) + cY + rtrunc (ry * Real.sin angle))

open scoped Classical in
/-- The nose-bridge part of _generate_nose_landmarks: 4 points descending
from y = 0.35*fh in steps of 0.08*fh, with x oscillating by int(2*sin(i*0.5))
about the face center column; no clamping is applied. -/
noncomputable def generateNoseBridge (fx fy fw fh : ℕ) : List (ℤ × ℤ) :=
  (List.range 4).map fun (i : ℕ) =>
    ((fx : ℤ) + (fw / 2 : ℕ) + rtrunc (2 * Real.sin ((i : ℝ) * 0.5)),
     (fy : ℤ) + qtrunc ((fh : ℚ) * ((0.35 : ℚ) + (i : ℚ) * 0.08)))

/-- The nose-tip part of _generate_nose_landmarks: 5 fixed-offset points
around (fw/2, 0.6*fh); no clamping is applied, so for fw < 16 the two
nostril points fall outside the face region. -/
def generateNoseTip (fx fy fw fh : ℕ) : List (ℤ × ℤ) :=
  let cX : ℕ := fw / 2
  let tipY : ℤ := qtrunc ((fh : ℚ) * 0.6)
  [ ((fx : ℤ) + cX - 8, (fy : ℤ) + tipY),
    ((fx : ℤ) + cX - 4, (fy : ℤ) + tipY - 3),
    ((fx : ℤ) + cX, (fy : ℤ) + tipY - 5),
    ((fx : ℤ) + cX + 4, (fy : ℤ) + tipY - 3),
    ((fx : ℤ) + cX + 8, (fy : ℤ) + tipY) ]

/-! ## Face comparison
Embeds FaceDetectionService.compare_faces, lines 224-257 of
services/face_detection.py. face_recognition.face_distance is the Euclidean
norm of the difference of the two encodings; round(confidence, 2) is the
Python round-half-to-even at two decimal places. The comparison is a pure
function of its arguments: it reads and writes no other state, which the
embedding reflects directly. -/

/-- Euclidean distance between two encodings of equal length. -/
noncomputable def faceDistance (known unknown : List ℝ) : ℝ :=
  Real.sqrt (((known.zip unknown).map fun p => (p.1 - p.2) ^ 2).sum)

open scoped Classical in
/-- Round-half-to-even to the nearest integer, the Python round(.). -/
noncomputable def roundHalfEven (y : ℝ) : ℤ :=
  if Int.fract y < 1 / 2 then ⌊y⌋
  else if 1 / 2 < Int.fract y then ⌊y⌋ + 1
  else if 2 ∣ ⌊y⌋ then ⌊y⌋ else ⌊y⌋ + 1

/-- round(x, 2): round-half-to-even at two decimal places. -/
noncomputable def roundTo2 (x : ℝ) : ℝ := (roundHalfEven (x * 100) : ℝ) / 100

/-- Result of compare_faces: match flag, raw distance, reported confidence. -/
structure CompareResult where
  is_match : Prop
  distance : ℝ
  confidence : ℝ

/-- compare_faces: match when distance <= tolerance (the caller-supplied
tolerance defaults to 0.6 in the source), with reported confidence
round(max(0, (1 - distance) * 100), 2). -/
noncomputable def compareFaces (known unknown : List ℝ) (tolerance : ℝ) :
    CompareResult :=
  let d := faceDistance known unknown
  { is_match := d ≤ tolerance
    distance := d
    confidence := roundTo2 (max 0 ((1 - d) * 100)) }

/-! ## Helper lemmas -/

theorem natDiv_mul_abs (a b : ℕ) (hb : 0 < b) :
    |((a / b : ℕ) : ℚ) * (b : ℚ) - (a : ℚ)| < (b : ℚ) := by
  have h1 : a / b * b ≤ a := Nat.div_mul_le_self a b
  have h2 : a < a / b * b + b := by
    have h3 := Nat.div_add_mod a b
    have h4 := Nat.mod_lt a hb
    have h5 : b * (a / b) = a / b * b := Nat.mul_comm b (a / b)
    linarith
  have h1q : ((a / b : ℕ) : ℚ) * b ≤ a := by exact_mod_cast h1
  have h2q : (a : ℚ) < ((a / b : ℕ) : ℚ) * b + b := by exact_mod_cast h2
  rw [abs_sub_comm, abs_of_nonneg (by linarith)]
  linarith

theorem qtrunc_abs_lt (q : ℚ) : |(qtrunc q : ℚ) - q| < 1 := by
  unfold qtrunc
  split_ifs with h
  · have h1 := Int.floor_le q
    have h2 := Int.sub_one_lt_floor q
    rw [abs_sub_comm, abs_of_nonneg (by linarith)]
    linarith
  · have h1 := Int.floor_le (-q)
    have h2 := Int.sub_one_lt_floor (-q)
    push_cast
    rw [abs_of_nonneg (by linarith)]
    linarith

theorem rtrunc_abs_lt (x : ℝ) : |(rtrunc x : ℝ) - x| < 1 := by
  unfold rtrunc
  split_ifs with h
  · have h1 := Int.floor_le x
    have h2 := Int.sub_one_lt_floor x
    rw [abs_sub_comm, abs_of_nonneg (by linarith)]
    linarith
  · have h1 := Int.floor_le (-x)
    have h2 := Int.sub_one_lt_floor (-x)
    push_cast
    rw [abs_of_nonneg (by linarith)]
    linarith

/-! ## Claim theorems -/

/-- Claim C1: for every detected eye pair the eyewear compositor resizes the
overlay to target width 2.5 times the integer inter-eye distance (exactly 250
at distance 100), keeps the source overlay aspect ratio in the target height,
and places the overlay at left_eye_center.x - 0.28*width and
left_eye_center.y - 0.45*height; each resolved integer quantity agrees with
the exact value to within one pixel of int(.) truncation, the tolerance the
spec allows. -/
theorem eyewear_scale_law (d ovw ovh e1x e1y : ℕ) (hov : 0 < ovw) :
    |((glassesWidth d : ℕ) : ℚ) - 2.5 * d| < 1 ∧
    (d = 100 → glassesWidth d = 250) ∧
    |((glassesHeight (glassesWidth d) ovw ovh : ℕ) : ℚ) * ovw -
        ((glassesWidth d : ℕ) : ℚ) * ovh| < ovw ∧
    |((xOffset e1x (glassesWidth d) : ℤ) : ℚ) -
        ((e1x : ℚ) - 0.28 * ((glassesWidth d : ℕ) : ℚ))| < 1 ∧
    |((yOffset e1y (glassesHeight (glassesWidth d) ovw ovh) : ℤ) : ℚ) -
        ((e1y : ℚ) - 0.45 * ((glassesHeight (glassesWidth d) ovw ovh : ℕ) : ℚ))| < 1 := by
  refine ⟨?_, ?_, ?_, ?_, ?_⟩
  · have h := abs_lt.mp (natDiv_mul_abs (5 * d) 2 (by norm_num))
    push_cast at h
    rw [glassesWidth, abs_lt]
    constructor <;> [linarith; linarith]
  · intro hd
    subst hd
    norm_num [glassesWidth]
  · have h := natDiv_mul_abs (glassesWidth d * ovh) ovw hov
    push_cast at h ⊢
    rw [glassesHeight]
    exact h
  · have h := abs_lt.mp (natDiv_mul_abs (28 * glassesWidth d) 100 (by norm_num))
    rw [Nat.cast_mul] at h
    rw [xOffset, Int.cast_sub, Int.cast_natCast, Int.cast_natCast, abs_lt]
    constructor <;> [linarith; linarith]
  · have h := abs_lt.mp (natDiv_mul_abs (45 * glassesHeight (glassesWidth d) ovw ovh) 100
      (by norm_num))
    rw [Nat.cast_mul] at h
    rw [yOffset, Int.cast_sub, Int.cast_natCast, Int.cast_natCast, abs_lt]
    constructor <;> [linarith; linarith]

/-- Witness for C1 at inter-eye distance 100 and a 2 x 1 overlay. -/
theorem eyewear_scale_law_witness :
    (0 < 2 ∧ |((glassesWidth 100 : ℕ) : ℚ) - 2.5 * 100| < 1) ∧
    (100 = 100 → glassesWidth 100 = 250) := by
  have h := eyewear_scale_law 100 2 1 7 9 (by norm_num)
  exact ⟨⟨by norm_num, h.1⟩, h.2.1⟩

/-- Claim C2: the face candidate filter only returns a subsequence of the raw
detections, and every returned region has its center within
0.4*min(W,H) of the image center and width and height at least 0.15 of the
image dimensions (the strict source thresholds imply the non-strict claim
bounds). -/
theorem face_filter_spec (W H : ℕ) (faces : List Rect) (hW : 1 ≤ W) (hH : 1 ≤ H) :
    (filterFaces W H faces).Sublist faces ∧
    ∀ r ∈ filterFaces W H faces,
      25 * centerDistSq W H r ≤ 4 * ((min W H : ℕ) : ℤ) ^ 2 ∧
      3 * W ≤ 20 * r.w ∧ 3 * H ≤ 20 * r.h := by
  refine ⟨List.filter_sublist _, ?_⟩
  intro r hr
  have h := List.of_mem_filter hr
  unfold keepFace at h
  rw [decide_eq_true_eq] at h
  exact ⟨le_of_lt h.1, le_of_lt h.2.1, le_of_lt h.2.2⟩

/-- Witness for C2 on a 100 x 100 image with one centered and one off-center
detection. -/
theorem face_filter_spec_witness :
    (filterFaces 100 100 [⟨30, 30, 40, 40⟩, ⟨0, 0, 100, 2⟩]).Sublist
      [⟨30, 30, 40, 40⟩, ⟨0, 0, 100, 2⟩] ∧
    ∀ r ∈ filterFaces 100 100 [⟨30, 30, 40, 40⟩, ⟨0, 0, 100, 2⟩],
      25 * centerDistSq 100 100 r ≤ 4 * ((min 100 100 : ℕ) : ℤ) ^ 2 ∧
      3 * 100 ≤ 20 * r.w ∧ 3 * 100 ≤ 20 * r.h :=
  face_filter_spec 100 100 [⟨30, 30, 40, 40⟩, ⟨0, 0, 100, 2⟩]
    (by norm_num) (by norm_num)

theorem everyOther_length : ∀ (l : List α), (everyOther l).length = (l.length + 1) / 2
  | [] => by simp [everyOther]
  | [_] => by simp [everyOther]
  | _ :: _ :: t => by
    simp only [everyOther, List.length_cons, everyOther_length t]
    omega

theorem everyOther_getD : ∀ (l : List α) (i : ℕ) (d : α),
    (everyOther l).getD i d = l.getD (2 * i) d
  | [], i, d => by simp [everyOther]
  | [a], i, d => by
    cases i with
    | zero => simp [everyOther]
    | succ n =>
      rw [show (2 : ℕ) * (n + 1) = 2 * n + 1 + 1 from by ring]
      simp [everyOther, List.getD_cons_succ, List.getD_nil]
  | a :: b :: t, i, d => by
    cases i with
    | zero => simp [everyOther]
    | succ n =>
      rw [show everyOther (a :: b :: t) = a :: everyOther t from by simp [everyOther],
        List.getD_cons_succ, everyOther_getD t n d,
        show (2 : ℕ) * (n + 1) = 2 * n + 1 + 1 from by ring,
        List.getD_cons_succ, List.getD_cons_succ]

/-- Claim C3: the derived inner-lip polygon has exactly ceil(N/2) points,
the i-th of which is the (2i)-th outer point moved 30 percent toward the
centroid of all N outer points, up to int(.) truncation of each
coordinate. -/
theorem inner_lip_derivation (outer : List (ℤ × ℤ)) (hne : outer ≠ []) :
    (innerLip outer).length = (outer.length + 1) / 2 ∧
    ∀ i, i < (innerLip outer).length →
      |(((innerLip outer).getD i (0, 0)).1 : ℚ) -
          (((outer.getD (2 * i) (0, 0)).1 : ℚ) * 0.7 +
            ((outer.map fun p => (p.1 : ℚ)).sum / (outer.length : ℚ)) * 0.3)| < 1 ∧
      |(((innerLip outer).getD i (0, 0)).2 : ℚ) -
          (((outer.getD (2 * i) (0, 0)).2 : ℚ) * 0.7 +
            ((outer.map fun p => (p.2 : ℚ)).sum / (outer.length : ℚ)) * 0.3)| < 1 := by
  have hemp : ¬ outer.isEmpty = true := by simpa [List.isEmpty_iff] using hne
  constructor
  · rw [innerLip, if_neg hemp]
    simp [everyOther_length]
  · intro i hi
    rw [innerLip, if_neg hemp] at hi ⊢
    simp only [List.length_map] at hi
    rw [List.getD_eq_getElem _ _ (by simpa using hi), List.getElem_map,
      ← List.getD_eq_getElem _ (0, 0) hi, everyOther_getD]
    exact ⟨qtrunc_abs_lt _, qtrunc_abs_lt _⟩

/-- Witness for C3 on the square outer-lip polygon
[(0,0), (10,0), (10,10), (0,10)]. -/
theorem inner_lip_derivation_witness :
    (innerLip [(0, 0), (10, 0), (10, 10), (0, 10)]).length = (4 + 1) / 2 :=
  (inner_lip_derivation [(0, 0), (10, 0), (10, 10), (0, 10)] (by simp)).1

theorem overlapArea_comm (a b : Rect) : overlapArea a b = overlapArea b a := by
  unfold overlapArea
  rw [min_comm ((a.x : ℤ) + a.w), max_comm (a.x : ℤ),
    min_comm ((a.y : ℤ) + a.h), max_comm (a.y : ℤ)]

theorem dedupLoop_sublist : ∀ (l acc : List Rect), (dedupLoop l acc).Sublist (acc ++ l)
  | [], acc => by simp [dedupLoop]
  | f :: rest, acc => by
    rw [dedupLoop]
    split_ifs with hdup
    · exact (dedupLoop_sublist rest acc).trans
        ((List.sublist_cons_self f rest).append_left acc)
    · have h := dedupLoop_sublist rest (acc ++ [f])
      rwa [List.append_assoc, List.singleton_append] at h

theorem dedupLoop_mem_acc : ∀ (l acc : List Rect) (a : Rect), a ∈ acc → a ∈ dedupLoop l acc
  | [], acc, a, ha => by simpa [dedupLoop] using ha
  | f :: rest, acc, a, ha => by
    rw [dedupLoop]
    split_ifs with hdup
    · exact dedupLoop_mem_acc rest acc a ha
    · exact dedupLoop_mem_acc rest (acc ++ [f]) a (List.mem_append_left _ ha)

theorem dedupLoop_pairwise :
    ∀ (l acc : List Rect),
      acc.Pairwise (fun a b => 2 * overlapArea a b ≤ min (area a) (area b)) →
      (dedupLoop l acc).Pairwise (fun a b => 2 * overlapArea a b ≤ min (area a) (area b))
  | [], acc, h => by simpa [dedupLoop] using h
  | f :: rest, acc, h => by
    rw [dedupLoop]
    split_ifs with hdup
    · exact dedupLoop_pairwise rest acc h
    · refine dedupLoop_pairwise rest (acc ++ [f]) ?_
      rw [List.pairwise_append]
      refine ⟨h, List.pairwise_singleton _ _, ?_⟩
      intro a ha b hb
      rw [List.mem_singleton] at hb
      rw [hb]
      have hnd : ¬ isDuplicate f a = true := by
        intro hcon
        exact hdup (List.any_eq_true.mpr ⟨a, ha, hcon⟩)
      rw [isDuplicate, decide_eq_true_eq, not_lt] at hnd
      rwa [overlapArea_comm, min_comm] at hnd

/-- Claim C10: duplicate-face removal returns a subsequence of its input in
which the first input rectangle always appears, no two retained rectangles
overlap by more than half of the smaller area, and inputs of length at most
one are returned unchanged. -/
theorem remove_duplicate_faces_spec (faces : List Rect) :
    (faces.length ≤ 1 → removeDuplicateFaces faces = faces) ∧
    (removeDuplicateFaces faces).Sublist faces ∧
    (∀ f rest, faces = f :: rest → f ∈ removeDuplicateFaces faces) ∧
    (removeDuplicateFaces faces).Pairwise
      (fun a b => 2 * overlapArea a b ≤ min (area a) (area b)) := by
  refine ⟨fun hle => by rw [removeDuplicateFaces, if_pos hle], ?_, ?_, ?_⟩
  · rw [removeDuplicateFaces]
    split_ifs with hle
    · exact List.Sublist.refl faces
    · simpa using dedupLoop_sublist faces []
  · intro f rest hf
    subst hf
    rw [removeDuplicateFaces]
    split_ifs with hle
    · exact List.mem_cons_self f rest
    · rw [dedupLoop]
      simp only [List.any_nil, Bool.false_eq_true, if_false]
      exact dedupLoop_mem_acc rest [f] f (List.mem_singleton_self f)
  · rw [removeDuplicateFaces]
    split_ifs with hle
    · match faces, hle with
      | [], _ => exact List.Pairwise.nil
      | [a], _ => exact List.pairwise_singleton _ _
    · exact dedupLoop_pairwise faces [] List.Pairwise.nil

/-- Witness for C10 on a three-element list containing an exact duplicate. -/
theorem remove_duplicate_faces_spec_witness :
    (removeDuplicateFaces [⟨1, 1, 4, 4⟩] = [⟨1, 1, 4, 4⟩]) ∧
    (⟨0, 0, 2, 2⟩ : Rect) ∈
      removeDuplicateFaces [⟨0, 0, 2, 2⟩, ⟨0, 0, 2, 2⟩, ⟨9, 9, 2, 2⟩] ∧
    (removeDuplicateFaces [⟨0, 0, 2, 2⟩, ⟨0, 0, 2, 2⟩, ⟨9, 9, 2, 2⟩]).Sublist
      [⟨0, 0, 2, 2⟩, ⟨0, 0, 2, 2⟩, ⟨9, 9, 2, 2⟩] :=
  ⟨(remove_duplicate_faces_spec [⟨1, 1, 4, 4⟩]).1 (by norm_num),
   (remove_duplicate_faces_spec [⟨0, 0, 2, 2⟩, ⟨0, 0, 2, 2⟩, ⟨9, 9, 2, 2⟩]).2.2.1 _ _ rfl,
   (remove_duplicate_faces_spec [⟨0, 0, 2, 2⟩, ⟨0, 0, 2, 2⟩, ⟨9, 9, 2, 2⟩]).2.1⟩

theorem blendPix_zero_alpha (o : Pix4) (p : Pix3) (h0 : o.a = 0)
    (h1 : p.b ≤ 255) (h2 : p.g ≤ 255) (h3 : p.r ≤ 255) : blendPix o p = p := by
  obtain ⟨pb, pg, pr⟩ := p
  simp only at h1 h2 h3
  simp only [blendPix, h0, Pix3.mk.injEq]
  refine ⟨by omega, by omega, by omega⟩

/-- Claim C7: the overlay operation returns a buffer of the same dimensions
as the destination and changes only pixels inside the clipped overlay
rectangle; every pixel outside it equals the corresponding input pixel. The
source works on background.copy(), never writing to its arguments, which the
embedding reflects by being a pure function of the input buffers. -/
theorem overlay_frame_effect (bg : Img3) (ov : Img4) (x y : ℤ) :
    (overlayWithTransparency bg ov x y).w = bg.w ∧
    (overlayWithTransparency bg ov x y).h = bg.h ∧
    ∀ i j : ℕ, ¬ insideClip bg ov x y i j →
      (overlayWithTransparency bg ov x y).pix i j = bg.pix i j := by
  rw [overlayWithTransparency]
  split_ifs with hemp
  · exact ⟨rfl, rfl, fun i j _ => rfl⟩
  · exact ⟨rfl, rfl, fun i j hij => by simp only [if_neg hij]⟩

/-- Witness for C7: a pixel above and left of the overlay footprint is
preserved. -/
theorem overlay_frame_effect_witness :
    (overlayWithTransparency ⟨4, 4, fun _ _ => ⟨1, 2, 3⟩⟩
      ⟨2, 2, fun _ _ => ⟨9, 9, 9, 9⟩⟩ 2 2).w = 4 ∧
    (overlayWithTransparency ⟨4, 4, fun _ _ => ⟨1, 2, 3⟩⟩
      ⟨2, 2, fun _ _ => ⟨9, 9, 9, 9⟩⟩ 2 2).pix 0 0 = ⟨1, 2, 3⟩ := by
  have h := overlay_frame_effect ⟨4, 4, fun _ _ => ⟨1, 2, 3⟩⟩
    ⟨2, 2, fun _ _ => ⟨9, 9, 9, 9⟩⟩ 2 2
  exact ⟨h.1, h.2.2 0 0 (by rw [insideClip]; push_cast; omega)⟩

/-- Claim C6: compositing an overlay whose opacity channel is zero
everywhere is the identity on any destination buffer of uint8 pixels, for
every placement offset. -/
theorem overlay_zero_opacity_identity (bg : Img3) (ov : Img4) (x y : ℤ)
    (ha : ∀ i j, (ov.pix i j).a = 0)
    (hb : ∀ i j, (bg.pix i j).b ≤ 255 ∧ (bg.pix i j).g ≤ 255 ∧ (bg.pix i j).r ≤ 255) :
    (overlayWithTransparency bg ov x y).w = bg.w ∧
    (overlayWithTransparency bg ov x y).h = bg.h ∧
    ∀ i j : ℕ, (overlayWithTransparency bg ov x y).pix i j = bg.pix i j := by
  rw [overlayWithTransparency]
  split_ifs with hemp
  · exact ⟨rfl, rfl, fun i j => rfl⟩
  · refine ⟨rfl, rfl, fun i j => ?_⟩
    by_cases hij : insideClip bg ov x y i j
    · simp only [if_pos hij]
      exact blendPix_zero_alpha _ _ (ha _ _) (hb i j).1 (hb i j).2.1 (hb i j).2.2
    · simp only [if_neg hij]

/-- Witness for C6 with a constant zero-opacity overlay on a constant
destination, at the pixel (1, 1) covered by the overlay. -/
theorem overlay_zero_opacity_identity_witness :
    (overlayWithTransparency ⟨4, 4, fun _ _ => ⟨10, 20, 30⟩⟩
      ⟨2, 2, fun _ _ => ⟨9, 9, 9, 0⟩⟩ 1 1).pix 1 1 = ⟨10, 20, 30⟩ :=
  (overlay_zero_opacity_identity ⟨4, 4, fun _ _ => ⟨10, 20, 30⟩⟩
    ⟨2, 2, fun _ _ => ⟨9, 9, 9, 0⟩⟩ 1 1 (fun _ _ => rfl)
    (fun _ _ => ⟨by norm_num, by norm_num, by norm_num⟩)).2.2 1 1

/-- Claim C4: the glasses pipeline is total (a Lean function; the sole
source-level escape, the catch-all exception handler, also returns the user
image) and degrades to the identity: with no detected face, with fewer than
two detected eyes, with a computed target width or height that is not
positive, or with an empty clipped overlay/destination intersection, the
original user image is returned unmodified. -/
theorem apply_glasses_degrades (faces eyes : List Rect) (glasses : Img4)
    (resize : Img4 → ℕ → ℕ → Img4) (user : Img3) :
    (faces = [] → applyGlasses faces eyes glasses resize user = user) ∧
    (eyes.length < 2 → applyGlasses faces eyes glasses resize user = user) ∧
    ∀ f rest, faces = f :: rest →
      (glassesGw f eyes = 0 ∨ glassesGh f eyes glasses = 0 →
        applyGlasses faces eyes glasses resize user = user) ∧
      (emptyClip user (resize glasses (glassesGw f eyes) (glassesGh f eyes glasses))
          (xOffset (eyePair f eyes).1.1 (glassesGw f eyes))
          (yOffset (eyePair f eyes).1.2 (glassesGh f eyes glasses)) →
        applyGlasses faces eyes glasses resize user = user) := by
  refine ⟨?_, ?_, ?_⟩
  · intro hf
    subst hf
    rfl
  · intro hlen
    cases faces with
    | nil => rfl
    | cons f rest => rw [applyGlasses, if_pos hlen]
  · intro f rest hf
    subst hf
    constructor
    · intro hz
      rw [applyGlasses]
      split_ifs with hlen
      · rfl
      · rfl
    · intro hclip
      rw [applyGlasses]
      split_ifs with hlen hz2
      · rfl
      · rfl
      · rw [overlayWithTransparency, if_pos hclip]

/-- Witness for C4 with no detected faces and no detected eyes. -/
theorem apply_glasses_degrades_witness :
    applyGlasses [] [] ⟨2, 2, fun _ _ => ⟨0, 0, 0, 0⟩⟩ (fun g _ _ => g)
      ⟨4, 4, fun _ _ => ⟨1, 2, 3⟩⟩ = ⟨4, 4, fun _ _ => ⟨1, 2, 3⟩⟩ :=
  (apply_glasses_degrades [] [] ⟨2, 2, fun _ _ => ⟨0, 0, 0, 0⟩⟩ (fun g _ _ => g)
    ⟨4, 4, fun _ _ => ⟨1, 2, 3⟩⟩).1 rfl

/-- Claim C5 (amended): among the parametric generators only the face
outline clamps its coordinates into [0, fw) x [0, fh) before translation to
image space; its 17 points therefore always lie inside the face region for
any fw, fh >= 1. The eye, eyebrow-fallback, nose and mouth-fallback
generators apply no clamping and can emit points outside the region (see the
nose-tip counterexample). -/
theorem face_outline_clamped (fx fy fw fh : ℕ) (hfw : 1 ≤ fw) (hfh : 1 ≤ fh) :
    ∀ p ∈ generateFaceOutline fx fy fw fh,
      (fx : ℤ) ≤ p.1 ∧ p.1 < (fx : ℤ) + fw ∧ (fy : ℤ) ≤ p.2 ∧ p.2 < (fy : ℤ) + fh := by
  intro p hp
  rw [generateFaceOutline] at hp
  simp only [List.mem_map, List.mem_range] at hp
  obtain ⟨k, hk, rfl⟩ := hp
  simp only
  have hfwz : (1 : ℤ) ≤ (fw : ℤ) := by exact_mod_cast hfw
  have hfhz : (1 : ℤ) ≤ (fh : ℤ) := by exact_mod_cast hfh
  refine ⟨le_add_of_nonneg_right (le_max_left _ _), ?_,
    le_add_of_nonneg_right (le_max_left _ _), ?_⟩
  · exact add_lt_add_left
      (lt_of_le_of_lt (max_le (by omega) (min_le_left _ _)) (by omega)) _
  · exact add_lt_add_left
      (lt_of_le_of_lt (max_le (by omega) (min_le_left _ _)) (by omega)) _

/-- Counterexample to C5 as stated: for a face region with fw = 1, fh = 100
at the origin, the nose-tip generator emits the point (-8, 60), whose
x-coordinate is outside [0, fw) in region-local (and image) coordinates. -/
theorem clamp_claim_counterexample :
    ((-8 : ℤ), (60 : ℤ)) ∈ generateNoseTip 0 0 1 100 ∧ ¬ ((0 : ℤ) ≤ -8) := by
  constructor
  · rw [generateNoseTip]
    norm_num [qtrunc]
  · norm_num

/-- Witness for the amended C5: the first outline point of a 5 x 6 face
region at (3, 4) lies inside the region. -/
theorem face_outline_clamped_witness :
    ((3 : ℕ) : ℤ) ≤ ((generateFaceOutline 3 4 5 6).getD 0 (0, 0)).1 ∧
    ((generateFaceOutline 3 4 5 6).getD 0 (0, 0)).1 < ((3 : ℕ) : ℤ) + (5 : ℕ) ∧
    ((4 : ℕ) : ℤ) ≤ ((generateFaceOutline 3 4 5 6).getD 0 (0, 0)).2 ∧
    ((generateFaceOutline 3 4 5 6).getD 0 (0, 0)).2 < ((4 : ℕ) : ℤ) + (6 : ℕ) := by
  have hlen : (generateFaceOutline 3 4 5 6).length = 17 := by
    rw [generateFaceOutline]
    simp only [List.length_map, List.length_range]
  have hmem : (generateFaceOutline 3 4 5 6).getD 0 (0, 0) ∈ generateFaceOutline 3 4 5 6 := by
    rw [List.getD_eq_getElem _ _ (by rw [hlen]; norm_num)]
    exact List.getElem_mem _
  exact face_outline_clamped 3 4 5 6 (by norm_num) (by norm_num) _ hmem

/-- Claim C8: the parametric eye generator produces exactly 12 points at the
angles 2*pi*i/12 around the eye-window center, each within one pixel of the
exact curve point whose horizontal semi-axis is 0.5*eye_w for every point
and whose vertical semi-axis is 0.4*eye_h on the half with angle in [0, pi)
(the branch the source labels the top half) and 0.5*eye_h on the other half;
the exact displacements satisfy the corresponding ellipse equation. -/
theorem eye_shape_geometry (ex ey ew eh fx fy : ℕ) :
    (createEyeShape ex ey ew eh fx fy).length = 12 ∧
    ∀ i, i < 12 →
      |(((createEyeShape ex ey ew eh fx fy).getD i (0, 0)).1 : ℝ) -
          (((fx + (ex + ew / 2) : ℕ) : ℝ) +
            (ew : ℝ) * 0.5 * Real.cos (2 * Real.pi * i / 12))| < 1 ∧
      |(((createEyeShape ex ey ew eh fx fy).getD i (0, 0)).2 : ℝ) -
          (((fy + (ey + eh / 2) : ℕ) : ℝ) +
            (if i < 6 then (eh : ℝ) * 0.4 else (eh : ℝ) * 0.5) *
              Real.sin (2 * Real.pi * i / 12))| < 1 ∧
      (if i < 6 then (eh : ℝ) * 0.4 else (eh : ℝ) * 0.5) ^ 2 *
            ((ew : ℝ) * 0.5 * Real.cos (2 * Real.pi * i / 12)) ^ 2 +
          ((ew : ℝ) * 0.5) ^ 2 *
            ((if i < 6 then (eh : ℝ) * 0.4 else (eh : ℝ) * 0.5) *
              Real.sin (2 * Real.pi * i / 12)) ^ 2 =
        ((ew : ℝ) * 0.5) ^ 2 * (if i < 6 then (eh : ℝ) * 0.4 else (eh : ℝ) * 0.5) ^ 2 := by
  have hlen : (createEyeShape ex ey ew eh fx fy).length = 12 := by
    rw [createEyeShape]
    simp only [List.length_map, List.length_range]
  refine ⟨hlen, ?_⟩
  intro i hi
  have hcond : (0 ≤ 2 * Real.pi * (i : ℝ) / 12 ∧ 2 * Real.pi * (i : ℝ) / 12 < Real.pi) ↔
      i < 6 := by
    have hpi := Real.pi_pos
    constructor
    · rintro ⟨-, h2⟩
      rw [div_lt_iff₀ (by norm_num : (0 : ℝ) < 12)] at h2
      have hir : (i : ℝ) < 6 := by nlinarith
      exact_mod_cast hir
    · intro h6
      have hir : (i : ℝ) < 6 := by exact_mod_cast h6
      refine ⟨by positivity, ?_⟩
      rw [div_lt_iff₀ (by norm_num : (0 : ℝ) < 12)]
      nlinarith
  rw [createEyeShape]
  rw [List.getD_eq_getElem _ _
    (by simp only [List.length_map, List.length_range]; exact hi)]
  simp only [List.getElem_map, List.getElem_range]
  rw [if_congr hcond rfl rfl]
  refine ⟨?_, ?_, ?_⟩
  · have h := abs_lt.mp (rtrunc_abs_lt ((ew : ℝ) * 0.5 * Real.cos (2 * Real.pi * i / 12)))
    rw [abs_lt]
    push_cast [-Int.ofNat_ediv, -Int.natCast_div]
    constructor <;> linarith
  · have h := abs_lt.mp (rtrunc_abs_lt ((if i < 6 then (eh : ℝ) * 0.4 else (eh : ℝ) * 0.5) *
      Real.sin (2 * Real.pi * i / 12)))
    rw [abs_lt]
    push_cast [-Int.ofNat_ediv, -Int.natCast_div]
    constructor <;> linarith
  · have hsc := Real.sin_sq_add_cos_sq (2 * Real.pi * (i : ℝ) / 12)
    by_cases h6 : i < 6
    · simp only [if_pos h6]
      linear_combination ((ew : ℝ) * 0.5) ^ 2 * ((eh : ℝ) * 0.4) ^ 2 * hsc
    · simp only [if_neg h6]
      linear_combination ((ew : ℝ) * 0.5) ^ 2 * ((eh : ℝ) * 0.5) ^ 2 * hsc

/-- Witness for C8 on a 4 x 5 eye window at (2, 3) in a face at the origin,
instantiated at the first generated point. -/
theorem eye_shape_geometry_witness :
    (createEyeShape 2 3 4 5 0 0).length = 12 ∧
    (|(((createEyeShape 2 3 4 5 0 0).getD 0 (0, 0)).1 : ℝ) -
        (((0 + (2 + 4 / 2) : ℕ) : ℝ) +
          ((4 : ℕ) : ℝ) * 0.5 * Real.cos (2 * Real.pi * (0 : ℕ) / 12))| < 1 ∧
      |(((createEyeShape 2 3 4 5 0 0).getD 0 (0, 0)).2 : ℝ) -
          (((0 + (3 + 5 / 2) : ℕ) : ℝ) +
            (if (0 : ℕ) < 6 then ((5 : ℕ) : ℝ) * 0.4 else ((5 : ℕ) : ℝ) * 0.5) *
              Real.sin (2 * Real.pi * (0 : ℕ) / 12))| < 1 ∧
      (if (0 : ℕ) < 6 then ((5 : ℕ) : ℝ) * 0.4 else ((5 : ℕ) : ℝ) * 0.5) ^ 2 *
            (((4 : ℕ) : ℝ) * 0.5 * Real.cos (2 * Real.pi * (0 : ℕ) / 12)) ^ 2 +
          (((4 : ℕ) : ℝ) * 0.5) ^ 2 *
            ((if (0 : ℕ) < 6 then ((5 : ℕ) : ℝ) * 0.4 else ((5 : ℕ) : ℝ) * 0.5) *
              Real.sin (2 * Real.pi * (0 : ℕ) / 12)) ^ 2 =
        (((4 : ℕ) : ℝ) * 0.5) ^ 2 *
          (if (0 : ℕ) < 6 then ((5 : ℕ) : ℝ) * 0.4 else ((5 : ℕ) : ℝ) * 0.5) ^ 2) :=
  ⟨(eye_shape_geometry 2 3 4 5 0 0).1, (eye_shape_geometry 2 3 4 5 0 0).2 0 (by norm_num)⟩

theorem roundHalfEven_abs_le (y : ℝ) : |(roundHalfEven y : ℝ) - y| ≤ 1 / 2 := by
  have hfd := Int.self_sub_floor y
  have hf0 := Int.fract_nonneg y
  have hf1 := Int.fract_lt_one y
  rw [roundHalfEven]
  split_ifs with h1 h2 h3
  · rw [abs_sub_comm, abs_of_nonneg (by linarith)]
    linarith
  · push_cast
    rw [abs_of_nonneg (by linarith)]
    linarith
  · rw [abs_sub_comm, abs_of_nonneg (by linarith)]
    linarith
  · push_cast
    rw [abs_of_nonneg (by linarith)]
    linarith

theorem roundHalfEven_nonneg (y : ℝ) (h : 0 ≤ y) : 0 ≤ roundHalfEven y := by
  have hfl : (0 : ℤ) ≤ ⌊y⌋ := Int.floor_nonneg.mpr h
  rw [roundHalfEven]
  split_ifs <;> omega

theorem roundHalfEven_le (y : ℝ) (B : ℤ) (h : y ≤ B) : roundHalfEven y ≤ B := by
  have hfl : ⌊y⌋ ≤ B := by
    have := Int.floor_le_floor h
    rwa [Int.floor_intCast] at this
  have hfd := Int.self_sub_floor y
  rw [roundHalfEven]
  split_ifs with h1 h2 h3
  · exact hfl
  · have hlt : (⌊y⌋ : ℝ) < y := by linarith
    have : (⌊y⌋ : ℝ) < (B : ℝ) := lt_of_lt_of_le hlt h
    have : ⌊y⌋ < B := by exact_mod_cast this
    omega
  · exact hfl
  · have hlt : (⌊y⌋ : ℝ) < y := by
      have h12 : Int.fract y = 1 / 2 := le_antisymm (not_lt.mp h2) (not_lt.mp h1)
      linarith
    have : (⌊y⌋ : ℝ) < (B : ℝ) := lt_of_lt_of_le hlt h
    have : ⌊y⌋ < B := by exact_mod_cast this
    omega

/-- Claim C9: face comparison classifies a pair as a match exactly when the
Euclidean distance of the two encodings is at most the tolerance, and
reports a confidence equal to max(0, 1 - distance)*100 rounded at two
decimal places by the source round(., 2) (so within 1/200 of the exact
value), always lying in [0, 100]. The embedding is a pure function of its
arguments, as is the source, which reads and writes no other state. -/
theorem compare_faces_spec (known unknown : List ℝ) (tolerance : ℝ)
    (hlen : known.length = unknown.length) :
    ((compareFaces known unknown tolerance).is_match ↔
      faceDistance known unknown ≤ tolerance) ∧
    (compareFaces known unknown tolerance).confidence =
      roundTo2 (max 0 (1 - faceDistance known unknown) * 100) ∧
    |(compareFaces known unknown tolerance).confidence -
        max 0 (1 - faceDistance known unknown) * 100| ≤ 1 / 200 ∧
    0 ≤ (compareFaces known unknown tolerance).confidence ∧
    (compareFaces known unknown tolerance).confidence ≤ 100 := by
  have hd0 : 0 ≤ faceDistance known unknown := Real.sqrt_nonneg _
  have hmax : max 0 ((1 - faceDistance known unknown) * 100) =
      max 0 (1 - faceDistance known unknown) * 100 := by
    rw [max_mul_of_nonneg _ _ (by norm_num : (0 : ℝ) ≤ 100), zero_mul]
  have hconf : (compareFaces known unknown tolerance).confidence =
      roundTo2 (max 0 ((1 - faceDistance known unknown) * 100)) := rfl
  have hc0 : 0 ≤ max 0 (1 - faceDistance known unknown) * 100 := by positivity
  have hc100 : max 0 (1 - faceDistance known unknown) * 100 ≤ 100 := by
    have : max 0 (1 - faceDistance known unknown) ≤ 1 :=
      max_le (by norm_num) (by linarith)
    linarith
  have habs := roundHalfEven_abs_le (max 0 (1 - faceDistance known unknown) * 100 * 100)
  have hnn := roundHalfEven_nonneg (max 0 (1 - faceDistance known unknown) * 100 * 100)
    (by positivity)
  have hle := roundHalfEven_le (max 0 (1 - faceDistance known unknown) * 100 * 100)
    10000 (by push_cast; linarith)
  have hnnr : (0 : ℝ) ≤
      (roundHalfEven (max 0 (1 - faceDistance known unknown) * 100 * 100) : ℝ) := by
    exact_mod_cast hnn
  have hler : ((roundHalfEven (max 0 (1 - faceDistance known unknown) * 100 * 100) : ℝ)) ≤
      10000 := by exact_mod_cast hle
  have habs2 := abs_le.mp habs
  refine ⟨Iff.rfl, by rw [hconf, hmax], ?_, ?_, ?_⟩
  · rw [hconf, hmax, roundTo2, abs_le]
    constructor <;> [linarith; linarith]
  · rw [hconf, hmax, roundTo2]
    positivity
  · rw [hconf, hmax, roundTo2]
    linarith

/-- Witness for C9 on the singleton encodings [0] and [0] at the default
tolerance 0.6. -/
theorem compare_faces_spec_witness :
    ((compareFaces [(0 : ℝ)] [(0 : ℝ)] 0.6).is_match ↔
      faceDistance [(0 : ℝ)] [(0 : ℝ)] ≤ 0.6) ∧
    0 ≤ (compareFaces [(0 : ℝ)] [(0 : ℝ)] 0.6).confidence ∧
    (compareFaces [(0 : ℝ)] [(0 : ℝ)] 0.6).confidence ≤ 100 :=
  ⟨(compare_faces_spec [(0 : ℝ)] [(0 : ℝ)] 0.6 rfl).1,
   (compare_faces_spec [(0 : ℝ)] [(0 : ℝ)] 0.6 rfl).2.2.2.1,
   (compare_faces_spec [(0 : ℝ)] [(0 : ℝ)] 0.6 rfl).2.2.2.2⟩
